import Mathlib

/-
Verification development for the sandbox core of tiborvass/vzor
(src/sbox/sbox.go): root-filesystem assembly (createRootMount,
addSubmountOverlay), mount-namespace setup in Run, the stdio
descriptor import (createFDMap), symlink-bounded path resolution used when
attaching the proc mount, and the terminal foreground-process-group
handoff in Run.

The external gvisor filesystems (whitelistfs, ramfs, tmpfs, proc) and
the overlay composer fs.NewOverlayRoot are modelled at the interface
the spec gives them: an overlay resolves a path in the upper tree
first and falls back to the lower tree, and writes land in the upper
tree.  Host-backed content is abstracted as an environment function
from (mount root path, path inside the mount) to the entry found
there.
-/

set_option autoImplicit false

namespace Sbox

/-- Result of looking a path up in a tree: a directory or a file with
content. -/
inductive Entry where
  | dir
  | file (content : String)
deriving DecidableEq, Repr

/-- fs.MountSourceFlags: only the ReadOnly field matters to these
claims. -/
structure MountSourceFlags where
  readOnly : Bool := false
deriving DecidableEq, Repr

/-- The inode trees that createRootMount composes.  `host` is a
whitelistfs mount of a host directory (carrying the flags it was
mounted with and the writes that have landed in it), `synthetic` is
the ramfs directory tree of empty mount points built by
addSubmountOverlay, `tmpfs` is the writable temporary layer, and
`overlay` is fs.NewOverlayRoot upper lower. -/
inductive InodeTree where
  | host (root : String) (flags : MountSourceFlags) (writes : List (String × String))
  | synthetic (paths : List String)
  | tmpfs (writes : List (String × String))
  | overlay (upper : InodeTree) (lower : InodeTree)
deriving DecidableEq, Repr

/-- First-some choice, the overlay fallback combinator. -/
def orE {α : Type} : Option α → Option α → Option α
  | some a, _ => some a
  | none, b => b

/-- Lookup in an association list of writes. -/
def assocFind : List (String × String) → String → Option String
  | [], _ => none
  | (k, v) :: rest, p => if k = p then some v else assocFind rest p

/-- Path lookup in a composed tree.  `env` gives the content the host
filesystem provides under a whitelist mount root; overlay resolves in
the upper tree first (the Overlay Composer contract: upper entries
shadow lower entries at matching paths). -/
def lookup (env : String → String → Option Entry) : InodeTree → String → Option Entry
  | .host root _ writes, p =>
      orE ((assocFind writes p).map Entry.file) (env root p)
  | .synthetic paths, p => if p ∈ paths then some Entry.dir else none
  | .tmpfs writes, p => (assocFind writes p).map Entry.file
  | .overlay upper lower, p => orE (lookup env upper p) (lookup env lower p)

/-- A write through a composed tree.  Per the Overlay Composer
contract, a write through an overlay lands in the upper tree; on a
host or tmpfs leaf it mutates that leaf's backing store.  The
synthetic tree holds only empty mount-point directories. -/
def write : InodeTree → String → String → InodeTree
  | .overlay upper lower, p, c => .overlay (write upper p c) lower
  | .tmpfs writes, p, c => .tmpfs ((p, c) :: writes)
  | .host root flags writes, p, c => .host root flags ((p, c) :: writes)
  | .synthetic paths, _, _ => .synthetic paths

/-- The mount flags of every host (whitelistfs) leaf of a tree. -/
def hostFlags : InodeTree → List MountSourceFlags
  | .host _ flags _ => [flags]
  | .overlay upper lower => hostFlags upper ++ hostFlags lower
  | _ => []

/-- The recorded writes of every host (whitelistfs) leaf of a tree. -/
def hostWrites : InodeTree → List (List (String × String))
  | .host _ _ writes => [writes]
  | .overlay upper lower => hostWrites upper ++ hostWrites lower
  | _ => []

/-! ### createRootMount (src/sbox/sbox.go lines 235-292) -/

/-- `mf := fs.MountSourceFlags{ReadOnly: false}` — the flags every
whitelistfs mount in createRootMount is created with. -/
def rootMountFlags : MountSourceFlags := { readOnly := false }

/-- filepath.IsAbs on linux: a non-empty path starting with a slash. -/
def isAbsPath (m : String) : Bool :=
  match m.toList with
  | [] => false
  | c :: _ => c = '/'

/-- `if !filepath.IsAbs(m) { m = filepath.Join(wd, m) }`.
filepath.Join also lexically cleans the result; the claims never
depend on the cleaned spelling, only on which host root string is
handed to the whitelistfs mount, so the model keeps the plain
concatenation. -/
def resolveMountPath (wd m : String) : String :=
  if isAbsPath m then m else wd ++ "/" ++ m

/-- The reserved submount directories (`submounts` in
createRootMount). -/
def reservedDirs : List String := ["/dev", "/sys", "/proc", "/tmp"]

/-- Errors of root assembly.  `noUpperTree` models handing the overlay
composer a nil upper inode: the composer's contract takes two actual
trees (the Go callee dereferences the upper pointer unconditionally),
so a nil upper can never produce a composed tree. -/
inductive MountErr where
  | noUpperTree
deriving DecidableEq, Repr

/-- fs.NewOverlayRoot at the interface the spec gives the Overlay
Composer: upper shadows lower.  The upper argument is an optional
tree because createRootMount passes a *fs.Inode that is nil when the
mount list was empty. -/
def newOverlayRoot (upper : Option InodeTree) (lower : InodeTree) : Except MountErr InodeTree :=
  match upper with
  | none => .error .noUpperTree
  | some u => .ok (.overlay u lower)

/-- The `for i, m := range mounts` loop of createRootMount: each entry
is mounted via whitelistfs at its resolved path, and for `i != 0` the
new mount is layered as the UPPER tree over the accumulator
(`fs.NewOverlayRoot(ctx, rootInode, prevInode, ...)` with the fresh
mount first).  `prev` plays the role of prevInode; it is none exactly
when i = 0. -/
def mountFold (wd : String) : List String → Option InodeTree → Option InodeTree
  | [], prev => prev
  | m :: rest, prev =>
      let fresh := InodeTree.host (resolveMountPath wd m) rootMountFlags []
      let rootInode :=
        match prev with
        | none => fresh
        | some prevInode => InodeTree.overlay fresh prevInode
      mountFold wd rest (some rootInode)

/-- addSubmountOverlay (lines 184-197): builds the ramfs directory
tree for `submounts` and overlays it as the LOWER tree under `inode`
(`fs.NewOverlayRoot(ctx, inode, mountTree, ...)`). -/
def addSubmountOverlay (inode : Option InodeTree) (submounts : List String) : Except MountErr InodeTree :=
  newOverlayRoot inode (InodeTree.synthetic submounts)

/-- createRootMount (lines 235-292): fold the whitelist mounts, add
the reserved submount tree as lower layer, then overlay a fresh tmpfs
as the topmost UPPER layer (`fs.NewOverlayRoot(ctx, upper, rootInode,
...)` with the tmpfs first). -/
def createRootMount (wd : String) (mounts : List String) : Except MountErr InodeTree :=
  match addSubmountOverlay (mountFold wd mounts none) reservedDirs with
  | .error e => .error e
  | .ok withSub =>
    match newOverlayRoot (some (InodeTree.tmpfs [])) withSub with
    | .error e => .error e
    | .ok root => .ok root

/-- Splitting a character stream at commas, accumulating the current
field in reverse: the semantics of Go's strings.Split with a
one-character separator. -/
def splitChars : List Char → List Char → List String
  | [], acc => [String.mk acc.reverse]
  | c :: rest, acc =>
      if c = ',' then String.mk acc.reverse :: splitChars rest []
      else splitChars rest (c :: acc)

/-- `strings.Split(o.Mounts, ",")` in Run (line 153).  Note Go's
strings.Split never returns an empty list: an empty Mounts string
yields the one-element list [""]. -/
def runMounts (mountsOpt : String) : List String :=
  splitChars mountsOpt.toList []

/-! ### createFDMap (src/sbox/sbox.go lines 294-352) -/

/-- An imported fs.File object.  `id` is the object identity (two
calls of host.ImportFile always yield two distinct objects; in the
model every import allocates a fresh id), `hostFD` records which host
descriptor the object was imported from, `isTTY` the flag passed to
host.ImportFile. -/
structure File where
  id : Nat
  hostFD : Nat
  isTTY : Bool
deriving DecidableEq, Repr

/-- host.ImportFile: allocates a fresh file object for the given host
descriptor.  `ctr` is the allocator state (next fresh id). -/
def importFile (ctr : Nat) (hostFD : Nat) (isTTY : Bool) : File × Nat :=
  ({ id := ctr, hostFD := hostFD, isTTY := isTTY }, ctr + 1)

/-- The loop state of createFDMap: the FD table built so far (sandbox
descriptor number to file), the remembered `ttyFile`, and the import
allocator. -/
structure FDState where
  table : List (Nat × File)
  ttyFile : Option File
  ctr : Nat
deriving DecidableEq, Repr

/-- `for appFD, hostFD := range fdMap` — the body of createFDMap's
loop.  `fdMap` is a Go map, so the iteration order over the three
entries is unspecified; the model takes it as the explicit `order`
argument.  `stdio appFD` is the host descriptor the map assigns to
sandbox slot `appFD`.  With `console` set, the first visited slot has
its host descriptor imported as a TTY file and every later slot
reuses that same object; otherwise each slot separately has its own
host descriptor imported as a regular file. -/
def fdMapLoop (console : Bool) (stdio : Nat → Nat) : List Nat → FDState → FDState
  | [], st => st
  | appFD :: rest, st =>
      let step : File × FDState :=
        if console = true ∧ appFD < 3 then
          match st.ttyFile with
          | none =>
              let imported := importFile st.ctr (stdio appFD) true
              (imported.1, { st with ttyFile := some imported.1, ctr := imported.2 })
          | some f => (f, st)
        else
          let imported := importFile st.ctr (stdio appFD) false
          (imported.1, { st with ctr := imported.2 })
      fdMapLoop console stdio rest
        { step.2 with table := step.2.table ++ [(appFD, step.1)] }

/-- createFDMap error: `stdioFDs should contain exactly 3 FDs`. -/
inductive ImportErr where
  | badStdioCount
deriving DecidableEq, Repr

/-- The final loop state of createFDMap over the three stdio slots, in
the given map-iteration order.  `stdioFDs.getD appFD 0` is the
`fdMap` literal `{0: stdioFDs[0], 1: stdioFDs[1], 2: stdioFDs[2]}`. -/
def createFDMapState (console : Bool) (stdioFDs : List Nat) (order : List Nat) : FDState :=
  fdMapLoop console (fun appFD => stdioFDs.getD appFD 0) order
    { table := [], ttyFile := none, ctr := 0 }

/-- createFDMap: checks that exactly three host descriptors were
supplied, then builds the table by iterating over the fdMap entries in
the (unspecified) map order. -/
def createFDMap (console : Bool) (stdioFDs : List Nat) (order : List Nat) :
    Except ImportErr (List (Nat × File)) :=
  if stdioFDs.length ≠ 3 then .error .badStdioCount
  else .ok (createFDMapState console stdioFDs order).table

/-- FDMap.GetFile: the file bound to a sandbox descriptor slot. -/
def getFile : List (Nat × File) → Nat → Option File
  | [], _ => none
  | (fd, f) :: rest, n => if fd = n then some f else getFile rest n

/-- The six possible iteration orders of a Go map holding the three
stdio slots. -/
def stdioOrders : List (List Nat) :=
  [[0, 1, 2], [0, 2, 1], [1, 0, 2], [1, 2, 0], [2, 0, 1], [2, 1, 0]]

/-! ### The mount-namespace guard in Run (src/sbox/sbox.go lines 150-158) -/

/-- The kernel state Run consults: `k.RootMountNamespace()`, nil until
`k.SetRootMountNamespace` is called.  Namespaces are identified by an
opaque id so that reuse versus overwrite is observable. -/
structure KernelState where
  rootMNS : Option Nat
deriving DecidableEq, Repr

/-- Errors surfaced by Run's namespace step.  `alreadyInitialized` is
the error kind the spec prescribes for a second construction attempt;
`mountError` wraps a failure of createMountNamespace (Run returns
`error creating mounts: ...`). -/
inductive RunErr where
  | alreadyInitialized
  | mountError
deriving DecidableEq, Repr

/-- Run lines 150-158: `mns := k.RootMountNamespace(); if mns == nil {
mns, err := createMountNamespace(...); if err != nil { return err };
k.SetRootMountNamespace(mns) }`.  `build` is the outcome of the
createMountNamespace call, performed only when no root namespace is
set yet. -/
def runNamespaceStep (k : KernelState) (build : Except MountErr Nat) : Except RunErr KernelState :=
  match k.rootMNS with
  | some _ => .ok k
  | none =>
      match build with
      | .error _ => .error .mountError
      | .ok mns => .ok { k with rootMNS := some mns }

/-! ### Symlink-bounded path resolution (createMountNamespace, lines
199-233, and the `followLinks` budget Run initializes at line 152)

The resolver itself is `fs.MountNamespace.FindInode`, external gvisor
code that is not part of this repository, so it is modelled from the
spec's stated semantics. -/

/-- A directory entry in the assembled root's directory view, as the
resolver sees it. -/
inductive Node where
  | dir (entries : List (String × Node))
  | file
  | symlink (target : List String)

/-- Resolution failures: `NotFound` for an absent component,
`SymlinkLimitExceeded` for an exhausted symlink budget. -/
inductive ResolveErr where
  | notFound
  | symlinkLimitExceeded
deriving DecidableEq, Repr

/-- Name lookup among the entries of one directory. -/
def lookupEntry : List (String × Node) → String → Option Node
  | [], _ => none
  | (n, nd) :: rest, name => if n = name then some nd else lookupEntry rest name

/-- One resolution pass: walks path components from `cur` until the
path is consumed, a component is absent, or a symlink is encountered.
A symlink stops the pass and reports the directory holding the link
together with the restarted path (link target followed by the
remaining components). -/
def walk : Node → List String → Except ResolveErr (Node ⊕ (Node × List String))
  | cur, [] => .ok (.inl cur)
  | cur, name :: rest =>
      match cur with
      | .dir entries =>
          match lookupEntry entries name with
          | none => .error .notFound
          | some (.symlink target) => .ok (.inr (.dir entries, target ++ rest))
          | some next => walk next rest
      | _ => .error .notFound

/-- Modelled from the spec: the path-resolution semantics of the
external `fs.MountNamespace.FindInode` — each path component is looked
up in the current directory entry; encountering a symlink consumes one
unit of budget and restarts resolution of the link's target;
resolution fails with `SymlinkLimitExceeded` if the budget reaches
zero before resolution completes, and with `NotFound` if any
intermediate component is absent. -/
def findInodeAux : Nat → Node → List String → Except ResolveErr Node
  | budget, cur, path =>
      match walk cur path with
      | .error e => .error e
      | .ok (.inl found) => .ok found
      | .ok (.inr (dirNode, restarted)) =>
          match budget with
          | 0 => .error .symlinkLimitExceeded
          | b + 1 => findInodeAux b dirNode restarted

/-- `mns.FindInode(ctx, root, root, path, maxTraversals)`, modelled
from the spec (see `findInodeAux`). -/
def findInode (root : Node) (path : List String) (maxTraversals : Nat) : Except ResolveErr Node :=
  findInodeAux maxTraversals root path

/-- linux.MaxSymlinkTraversals, the fixed platform maximum. -/
def maxSymlinkTraversals : Nat := 40

/-- `followLinks := uint(linux.MaxSymlinkTraversals)` in Run (line
152): the symlink budget handed to createMountNamespace. -/
def runFollowLinks : Nat := maxSymlinkTraversals

/-- The process-info mount path "/proc" of createMountNamespace (line
223), as components. -/
def procMountPath : List String := ["proc"]

/-- createMountNamespace's attachment of the proc filesystem (lines
213-230): resolves "/proc" from the namespace root under the symlink
budget and mounts proc there; a resolution failure makes the whole
construction return an error (`failed to find mount destination`), so
no partially built namespace is handed out.  `rootView` is the
directory view of the assembled root inode. -/
def attachProcMount (rootView : Node) (maxTraversals : Nat) : Except RunErr Node :=
  match findInode rootView procMountPath maxTraversals with
  | .error _ => .error .mountError
  | .ok dirent => .ok dirent

/-- A flat root holding one self-restarting link and one target
directory: resolving `chainPath b` from it traverses exactly `b`
symlinks before reaching the target. -/
def chainRoot : Node :=
  .dir [("l", .symlink []), ("t", .dir [])]

/-- `b` link traversals followed by the final target component. -/
def chainPath (b : Nat) : List String :=
  List.replicate b "l" ++ ["t"]

/-! ### The Run tail (src/sbox/sbox.go lines 159-177) -/

/-- The observable events of Run after the namespace is built:
process creation (carrying the created process's process group), the
`ttyfop.InitForegroundProcessGroup(tg.ProcessGroup())` call, and
`k.Start()`. -/
inductive Event where
  | createProcess (pg : Nat)
  | setForegroundPG (pg : Nat)
  | start
deriving DecidableEq, Repr

/-- Run lines 159-177 as an event trace: `k.CreateProcess(procArgs)`,
then — only when o.TTY is set — fetch the shared TTY file from slot 0
of the FD map and set its foreground process group to the global init
process's group, then `k.Start()`.  `initPG` is the process group of
the newly created initial process (`tg.ProcessGroup()`). -/
def runStartEvents (tty : Bool) (initPG : Nat) : List Event :=
  [Event.createProcess initPG] ++
    (if tty then [Event.setForegroundPG initPG] else []) ++
    [Event.start]

/-! ### Helper lemmas -/

@[simp]
theorem orE_some {α : Type} (a : α) (b : Option α) : orE (some a) b = some a := rfl

@[simp]
theorem orE_none {α : Type} (b : Option α) : orE none b = b := rfl

theorem orE_assoc {α : Type} (a b c : Option α) :
    orE (orE a b) c = orE a (orE b c) := by
  cases a <;> rfl

theorem findSome?_append {α β : Type} (f : α → Option β) (l1 l2 : List α) :
    (l1 ++ l2).findSome? f = orE (l1.findSome? f) (l2.findSome? f) := by
  induction l1 with
  | nil => simp
  | cons a l1 ih =>
      simp only [List.cons_append, List.findSome?_cons]
      cases f a <;> simp [ih]

theorem mountFold_exists (wd : String) (ms : List String) :
    ∀ t : InodeTree, ∃ acc, mountFold wd ms (some t) = some acc := by
  induction ms with
  | nil => intro t; exact ⟨t, rfl⟩
  | cons m rest ih =>
      intro t
      exact ih (.overlay (.host (resolveMountPath wd m) rootMountFlags []) t)

theorem mountFold_lookup (env : String → String → Option Entry) (wd : String)
    (ms : List String) :
    ∀ t acc, mountFold wd ms (some t) = some acc →
      ∀ p, lookup env acc p =
        orE (ms.reverse.findSome? fun m => env (resolveMountPath wd m) p)
          (lookup env t p) := by
  induction ms with
  | nil =>
      intro t acc h p
      cases h
      simp
  | cons m rest ih =>
      intro t acc h p
      have step := ih (.overlay (.host (resolveMountPath wd m) rootMountFlags []) t) acc h p
      have hfs :
          ((m :: rest).reverse.findSome? fun m => env (resolveMountPath wd m) p) =
            orE (rest.reverse.findSome? fun m => env (resolveMountPath wd m) p)
              (env (resolveMountPath wd m) p) := by
        rw [List.reverse_cons, findSome?_append]
        simp only [List.findSome?_cons, List.findSome?_nil]
        cases env (resolveMountPath wd m) p <;> rfl
      rw [hfs, orE_assoc]
      rw [step]
      simp [lookup, assocFind]

theorem createRootMount_shape (wd : String) (mounts : List String) (acc : InodeTree)
    (h : mountFold wd mounts none = some acc) :
    createRootMount wd mounts =
      .ok (.overlay (.tmpfs []) (.overlay acc (.synthetic reservedDirs))) := by
  simp [createRootMount, addSubmountOverlay, newOverlayRoot, h]

theorem createRootMount_ok_inv (wd : String) (mounts : List String) (t : InodeTree)
    (h : createRootMount wd mounts = .ok t) :
    ∃ acc, mountFold wd mounts none = some acc ∧
      t = .overlay (.tmpfs []) (.overlay acc (.synthetic reservedDirs)) := by
  cases hfold : mountFold wd mounts none with
  | none =>
      rw [createRootMount, addSubmountOverlay, hfold] at h
      exact absurd h (by simp [newOverlayRoot])
  | some acc =>
      refine ⟨acc, rfl, ?_⟩
      rw [createRootMount_shape wd mounts acc hfold] at h
      cases h
      rfl

theorem mountFold_hostFlags (wd : String) (ms : List String) :
    ∀ t acc, mountFold wd ms (some t) = some acc →
      (∀ fl ∈ hostFlags t, fl.readOnly = false) →
      ∀ fl ∈ hostFlags acc, fl.readOnly = false := by
  induction ms with
  | nil =>
      intro t acc h ht
      cases h
      exact ht
  | cons m rest ih =>
      intro t acc h ht
      refine ih (.overlay (.host (resolveMountPath wd m) rootMountFlags []) t) acc h ?_
      intro fl hfl
      simp only [hostFlags, List.mem_append, List.mem_singleton] at hfl
      rcases hfl with rfl | hfl
      · rfl
      · exact ht fl hfl

theorem mountFold_hostWrites (wd : String) (ms : List String) :
    ∀ t acc, mountFold wd ms (some t) = some acc →
      (∀ ws ∈ hostWrites t, ws = []) →
      ∀ ws ∈ hostWrites acc, ws = [] := by
  induction ms with
  | nil =>
      intro t acc h ht
      cases h
      exact ht
  | cons m rest ih =>
      intro t acc h ht
      refine ih (.overlay (.host (resolveMountPath wd m) rootMountFlags []) t) acc h ?_
      intro ws hws
      simp only [hostWrites, List.mem_append, List.mem_singleton] at hws
      rcases hws with rfl | hws
      · rfl
      · exact ht ws hws

theorem findSome?_reverse_cons {α β : Type} (f : α → Option β) (m : α) (rest : List α) :
    ((m :: rest).reverse.findSome? f) = orE (rest.reverse.findSome? f) (f m) := by
  rw [List.reverse_cons, findSome?_append]
  simp only [List.findSome?_cons, List.findSome?_nil]
  cases f m <;> rfl

theorem mountFold_none_hostWrites (wd : String) (mounts : List String) (acc : InodeTree)
    (h : mountFold wd mounts none = some acc) :
    ∀ ws ∈ hostWrites acc, ws = [] := by
  cases mounts with
  | nil => cases h
  | cons m rest =>
      refine mountFold_hostWrites wd rest _ acc h ?_
      intro ws hws
      simp only [hostWrites, List.mem_singleton] at hws
      exact hws

theorem mountFold_none_hostFlags (wd : String) (mounts : List String) (acc : InodeTree)
    (h : mountFold wd mounts none = some acc) :
    ∀ fl ∈ hostFlags acc, fl.readOnly = false := by
  cases mounts with
  | nil => cases h
  | cons m rest =>
      refine mountFold_hostFlags wd rest _ acc h ?_
      intro fl hfl
      simp only [hostFlags, List.mem_singleton] at hfl
      rw [hfl]
      rfl

/-! ### Claims -/

/-- C3: for every non-empty mount list, root assembly folds the
per-entry host trees left to right with the accumulator as the lower
tree and each subsequent tree as the upper tree, so a path provided by
at least one entry resolves, in the assembled root, to the content of
the last-listed entry that provides it.  `mounts.reverse.findSome? f`
is exactly the content of the last-listed mount whose host tree
provides `p`. -/
theorem createRootMount_last_listed_wins
    (env : String → String → Option Entry) (wd : String) (mounts : List String)
    (p : String) (e : Entry)
    (hne : mounts ≠ [])
    (hlast : mounts.reverse.findSome? (fun m => env (resolveMountPath wd m) p) = some e) :
    ∃ acc t, mountFold wd mounts none = some acc ∧
      createRootMount wd mounts = .ok t ∧
      t = .overlay (.tmpfs []) (.overlay acc (.synthetic reservedDirs)) ∧
      lookup env t p = some e := by
  match mounts, hne with
  | m :: rest, _ =>
    obtain ⟨acc, hacc⟩ :=
      mountFold_exists wd rest (.host (resolveMountPath wd m) rootMountFlags [])
    have hfold : mountFold wd (m :: rest) none = some acc := hacc
    have hlk := mountFold_lookup env wd rest _ acc hacc p
    have hhost : lookup env (.host (resolveMountPath wd m) rootMountFlags []) p =
        env (resolveMountPath wd m) p := by
      simp [lookup, assocFind]
    rw [hhost] at hlk
    rw [findSome?_reverse_cons] at hlast
    have haccp : lookup env acc p = some e := by rw [hlk, hlast]
    refine ⟨acc, _, hfold, createRootMount_shape wd (m :: rest) acc hfold, rfl, ?_⟩
    simp [lookup, assocFind, haccp]

/-- C3 witness: mount spec ["/a", "/b"] where /a/x = "base" and
/b/x = "override"; after assembly, reading x yields "override". -/
theorem createRootMount_last_listed_wins_witness :
    ∃ acc t,
      mountFold "/w" ["/a", "/b"] none = some acc ∧
      createRootMount "/w" ["/a", "/b"] = .ok t ∧
      t = .overlay (.tmpfs []) (.overlay acc (.synthetic reservedDirs)) ∧
      lookup
        (fun r q =>
          if r = "/b" ∧ q = "x" then some (.file "override")
          else if r = "/a" ∧ q = "x" then some (.file "base") else none)
        t "x" = some (.file "override") :=
  createRootMount_last_listed_wins
    (fun r q =>
      if r = "/b" ∧ q = "x" then some (.file "override")
      else if r = "/a" ∧ q = "x" then some (.file "base") else none)
    "/w" ["/a", "/b"] "x" (.file "override") (by decide) (by decide)

/-- C4 counterexample: for the literally empty mount list the loop of
createRootMount never runs, so the accumulator handed to the submount
overlay step is nil — no empty tree is constructed — and root
assembly fails instead of proceeding identically. -/
theorem createRootMount_empty_list_no_empty_tree :
    mountFold "/w" [] none = none ∧
    createRootMount "/w" [] = .error .noUpperTree :=
  ⟨rfl, rfl⟩

/-- C4 as amended: an empty mount-spec string reaches createRootMount
as the one-entry list [""] (strings.Split never yields an empty list),
so the accumulator starts as a whitelist mount of the (slash-suffixed)
working directory rather than an empty tree; the reserved directories
nevertheless all exist as mount points in the assembled root,
whatever the host provides.  A literally empty mount list instead
leaves the accumulator nil and assembly fails. -/
theorem createRootMount_empty_spec_amended
    (env : String → String → Option Entry) (wd : String) :
    runMounts "" = [""] ∧
    mountFold wd [""] none =
      some (.host (resolveMountPath wd "") rootMountFlags []) ∧
    (∃ t, createRootMount wd [""] = .ok t ∧
      ∀ d ∈ reservedDirs, (lookup env t d).isSome = true) := by
  refine ⟨rfl, rfl, ⟨_, createRootMount_shape wd [""] _ rfl, ?_⟩⟩
  intro d hd
  simp only [lookup, assocFind, Option.map_none, orE_none, if_pos hd]
  cases env (resolveMountPath wd "") d <;> simp [orE]

/-- C4 witness: with no host content at all, every reserved directory
is still present in the root assembled from the empty mount spec. -/
theorem createRootMount_empty_spec_amended_witness :
    runMounts "" = [""] ∧
    mountFold "/w" [""] none =
      some (.host (resolveMountPath "/w" "") rootMountFlags []) ∧
    (∃ t, createRootMount "/w" [""] = .ok t ∧
      ∀ d ∈ reservedDirs, (lookup (fun _ _ => none) t d).isSome = true) :=
  createRootMount_empty_spec_amended (fun _ _ => none) "/w"

/-- C6: the writable tmpfs layer is the topmost upper tree of the
assembled root, so a write through the assembled root lands in the
tmpfs layer, leaves the rest of the composition syntactically
untouched, and no host-backed tree ever records a write. -/
theorem createRootMount_writes_hit_tmpfs
    (wd : String) (mounts : List String) (t : InodeTree)
    (h : createRootMount wd mounts = .ok t) (p c : String) :
    ∃ rest, t = .overlay (.tmpfs []) rest ∧
      write t p c = .overlay (.tmpfs [(p, c)]) rest ∧
      hostWrites (write t p c) = hostWrites t ∧
      (∀ ws ∈ hostWrites (write t p c), ws = []) := by
  obtain ⟨acc, hfold, rfl⟩ := createRootMount_ok_inv wd mounts t h
  refine ⟨_, rfl, rfl, rfl, ?_⟩
  intro ws hws
  simp only [write, hostWrites, List.nil_append, List.append_nil] at hws
  exact mountFold_none_hostWrites wd mounts acc hfold ws hws

/-- C6 witness at mount spec ["/a"]. -/
theorem createRootMount_writes_hit_tmpfs_witness :
    ∃ rest,
      InodeTree.overlay (.tmpfs [])
          (.overlay (.host "/a" rootMountFlags []) (.synthetic reservedDirs)) =
        .overlay (.tmpfs []) rest ∧
      write (.overlay (.tmpfs [])
          (.overlay (.host "/a" rootMountFlags []) (.synthetic reservedDirs)))
          "/x" "hello" = .overlay (.tmpfs [("/x", "hello")]) rest ∧
      hostWrites (write (.overlay (.tmpfs [])
          (.overlay (.host "/a" rootMountFlags []) (.synthetic reservedDirs)))
          "/x" "hello") =
        hostWrites (InodeTree.overlay (.tmpfs [])
          (.overlay (.host "/a" rootMountFlags []) (.synthetic reservedDirs))) ∧
      (∀ ws ∈ hostWrites (write (.overlay (.tmpfs [])
          (.overlay (.host "/a" rootMountFlags []) (.synthetic reservedDirs)))
          "/x" "hello"), ws = []) :=
  createRootMount_writes_hit_tmpfs "/w" ["/a"] _ rfl "/x" "hello"

/-- C7: the synthetic subtree holds exactly the reserved directories
as empty directories and sits as the lower tree under the host
accumulator, so every reserved path exists in the assembled root even
when no host mount provides it, while host content at such a path
shadows the synthetic entry. -/
theorem createRootMount_synthetic_lower
    (env : String → String → Option Entry) (wd : String) (mounts : List String)
    (t : InodeTree) (h : createRootMount wd mounts = .ok t) :
    ∃ acc, mountFold wd mounts none = some acc ∧
      t = .overlay (.tmpfs []) (.overlay acc (.synthetic reservedDirs)) ∧
      (∀ d, lookup env (.synthetic reservedDirs) d =
        if d ∈ reservedDirs then some Entry.dir else none) ∧
      (∀ d ∈ reservedDirs, (lookup env t d).isSome = true) ∧
      (∀ d e, lookup env acc d = some e → lookup env t d = some e) := by
  obtain ⟨acc, hfold, rfl⟩ := createRootMount_ok_inv wd mounts t h
  refine ⟨acc, hfold, rfl, fun d => rfl, ?_, ?_⟩
  · intro d hd
    simp only [lookup, assocFind, Option.map_none, orE_none, if_pos hd]
    cases lookup env acc d <;> simp [orE]
  · intro d e he
    simp [lookup, assocFind, he]

/-- C7 witness at mount spec ["/a"], with a host that provides /dev
(shadowing the synthetic entry) and nothing else. -/
theorem createRootMount_synthetic_lower_witness :
    ∃ acc,
      mountFold "/w" ["/a"] none = some acc ∧
      InodeTree.overlay (.tmpfs [])
          (.overlay (.host "/a" rootMountFlags []) (.synthetic reservedDirs)) =
        .overlay (.tmpfs []) (.overlay acc (.synthetic reservedDirs)) ∧
      (∀ d, lookup (fun r q => if r = "/a" ∧ q = "/dev" then some Entry.dir else none)
          (.synthetic reservedDirs) d =
        if d ∈ reservedDirs then some Entry.dir else none) ∧
      (∀ d ∈ reservedDirs,
        (lookup (fun r q => if r = "/a" ∧ q = "/dev" then some Entry.dir else none)
          (InodeTree.overlay (.tmpfs [])
            (.overlay (.host "/a" rootMountFlags []) (.synthetic reservedDirs))) d).isSome
          = true) ∧
      (∀ d e,
        lookup (fun r q => if r = "/a" ∧ q = "/dev" then some Entry.dir else none) acc d =
          some e →
        lookup (fun r q => if r = "/a" ∧ q = "/dev" then some Entry.dir else none)
          (InodeTree.overlay (.tmpfs [])
            (.overlay (.host "/a" rootMountFlags []) (.synthetic reservedDirs))) d =
          some e) :=
  createRootMount_synthetic_lower
    (fun r q => if r = "/a" ∧ q = "/dev" then some Entry.dir else none)
    "/w" ["/a"] _ rfl

/-- C10: every whitelistfs mount created during root assembly carries
the flags `mf := fs.MountSourceFlags{ReadOnly: false}` — the host
mounts are read-write — and the isolation of host content rests on
the tmpfs layer being the topmost upper tree of the assembled root. -/
theorem createRootMount_host_mounts_read_write
    (wd : String) (mounts : List String) (t : InodeTree)
    (h : createRootMount wd mounts = .ok t) :
    rootMountFlags.readOnly = false ∧
    (∀ fl ∈ hostFlags t, fl.readOnly = false) ∧
    (∃ rest, t = .overlay (.tmpfs []) rest) := by
  obtain ⟨acc, hfold, rfl⟩ := createRootMount_ok_inv wd mounts t h
  refine ⟨rfl, ?_, ⟨_, rfl⟩⟩
  intro fl hfl
  simp only [hostFlags, List.nil_append, List.append_nil] at hfl
  exact mountFold_none_hostFlags wd mounts acc hfold fl hfl

/-- C10 witness at mount spec ["/a", "/b"]. -/
theorem createRootMount_host_mounts_read_write_witness :
    rootMountFlags.readOnly = false ∧
    (∀ fl ∈ hostFlags (InodeTree.overlay (.tmpfs [])
        (.overlay
          (.overlay (.host "/b" rootMountFlags []) (.host "/a" rootMountFlags []))
          (.synthetic reservedDirs))),
      fl.readOnly = false) ∧
    (∃ rest,
      InodeTree.overlay (.tmpfs [])
          (.overlay
            (.overlay (.host "/b" rootMountFlags []) (.host "/a" rootMountFlags []))
            (.synthetic reservedDirs)) =
        .overlay (.tmpfs []) rest) :=
  createRootMount_host_mounts_read_write "/w" ["/a", "/b"] _ rfl

/-- C1: with terminal mode enabled and three valid host descriptors,
whatever order the Go map iteration visits the three slots in, slots
0, 1 and 2 of the resulting descriptor table hold one identical file
object; with terminal mode disabled they hold three pairwise-distinct
file objects. -/
theorem createFDMap_terminal_aliasing
    (s0 s1 s2 : Nat) (order : List Nat) (hord : order ∈ stdioOrders) :
    (∃ tbl f, createFDMap true [s0, s1, s2] order = .ok tbl ∧
      getFile tbl 0 = some f ∧ getFile tbl 1 = some f ∧ getFile tbl 2 = some f) ∧
    (∃ tbl f0 f1 f2, createFDMap false [s0, s1, s2] order = .ok tbl ∧
      getFile tbl 0 = some f0 ∧ getFile tbl 1 = some f1 ∧ getFile tbl 2 = some f2 ∧
      f0 ≠ f1 ∧ f0 ≠ f2 ∧ f1 ≠ f2) := by
  simp only [stdioOrders, List.mem_cons, List.not_mem_nil, or_false] at hord
  rcases hord with rfl | rfl | rfl | rfl | rfl | rfl <;>
    exact ⟨⟨_, _, rfl, rfl, rfl, rfl⟩,
      ⟨_, _, _, _, rfl, rfl, rfl, rfl,
        by simp [importFile, File.mk.injEq],
        by simp [importFile, File.mk.injEq],
        by simp [importFile, File.mk.injEq]⟩⟩

/-- C1 witness at host descriptors 10, 11, 12 and iteration order
[2, 1, 0]. -/
theorem createFDMap_terminal_aliasing_witness :
    (∃ tbl f, createFDMap true [10, 11, 12] [2, 1, 0] = .ok tbl ∧
      getFile tbl 0 = some f ∧ getFile tbl 1 = some f ∧ getFile tbl 2 = some f) ∧
    (∃ tbl f0 f1 f2, createFDMap false [10, 11, 12] [2, 1, 0] = .ok tbl ∧
      getFile tbl 0 = some f0 ∧ getFile tbl 1 = some f1 ∧ getFile tbl 2 = some f2 ∧
      f0 ≠ f1 ∧ f0 ≠ f2 ∧ f1 ≠ f2) :=
  createFDMap_terminal_aliasing 10 11 12 [2, 1, 0] (by decide)

/-- C2 counterexample: createFDMap iterates over a Go map, whose
iteration order is unspecified.  Under the possible order [1, 0, 2]
and distinct host descriptors 10, 11, 12 for slots 0, 1, 2, the shared
terminal object bound to all three slots was imported from host
descriptor 11 — slot 1's descriptor — not from slot 0's. -/
theorem createFDMap_tty_not_from_slot0 :
    [1, 0, 2] ∈ stdioOrders ∧
    ∃ tbl f, createFDMap true [10, 11, 12] [1, 0, 2] = .ok tbl ∧
      getFile tbl 0 = some f ∧ getFile tbl 1 = some f ∧ getFile tbl 2 = some f ∧
      f.hostFD = 11 ∧ f.hostFD ≠ 10 :=
  ⟨by decide, _, _, rfl, rfl, rfl, rfl, rfl, by decide⟩

/-- C2 as amended: with terminal mode enabled, the shared terminal
object is imported — exactly once — from the host descriptor of
whichever slot the (unspecified) map iteration visits first, and the
two remaining slots are bound to that same object instance rather
than being imported from their own host descriptors. -/
theorem createFDMap_tty_first_visited
    (s0 s1 s2 : Nat) (order : List Nat) (hord : order ∈ stdioOrders) :
    ∃ tbl f, createFDMap true [s0, s1, s2] order = .ok tbl ∧
      getFile tbl 0 = some f ∧ getFile tbl 1 = some f ∧ getFile tbl 2 = some f ∧
      f.isTTY = true ∧
      f.hostFD = [s0, s1, s2].getD (order.headD 0) 0 ∧
      (createFDMapState true [s0, s1, s2] order).ctr = 1 := by
  simp only [stdioOrders, List.mem_cons, List.not_mem_nil, or_false] at hord
  rcases hord with rfl | rfl | rfl | rfl | rfl | rfl <;>
    exact ⟨_, _, rfl, rfl, rfl, rfl, rfl, rfl, rfl⟩

/-- C2 amended, witness at iteration order [2, 0, 1]: the shared
object comes from slot 2's host descriptor. -/
theorem createFDMap_tty_first_visited_witness :
    ∃ tbl f, createFDMap true [10, 11, 12] [2, 0, 1] = .ok tbl ∧
      getFile tbl 0 = some f ∧ getFile tbl 1 = some f ∧ getFile tbl 2 = some f ∧
      f.isTTY = true ∧
      f.hostFD = [10, 11, 12].getD ([2, 0, 1].headD 0) 0 ∧
      (createFDMapState true [10, 11, 12] [2, 0, 1]).ctr = 1 :=
  createFDMap_tty_first_visited 10 11 12 [2, 0, 1] (by decide)

/-- C5 counterexample: with a root mount namespace already set
(id 7), Run's namespace step returns success with the old namespace
still in place — it silently reuses the existing root instead of
rejecting the second attempt with AlreadyInitialized. -/
theorem runNamespaceStep_silent_reuse :
    runNamespaceStep { rootMNS := some 7 } (.ok 8) = .ok { rootMNS := some 7 } ∧
    runNamespaceStep { rootMNS := some 7 } (.ok 8) ≠ .error .alreadyInitialized :=
  ⟨rfl, fun h => Except.noConfusion h⟩

/-- C5 as amended: namespace construction runs at most once per
kernel — when a root namespace is already set, the second attempt is
silently skipped, keeping the existing root unchanged and returning
success (no overwrite, but also no AlreadyInitialized error); when
none is set, a successful build installs the new root and a build
failure propagates as an error. -/
theorem runNamespaceStep_one_shot
    (k : KernelState) (build : Except MountErr Nat) :
    (∀ m, k.rootMNS = some m → runNamespaceStep k build = .ok k) ∧
    (k.rootMNS = none → ∀ mns, build = .ok mns →
      runNamespaceStep k build = .ok { rootMNS := some mns }) ∧
    (k.rootMNS = none → ∀ e, build = .error e →
      runNamespaceStep k build = .error .mountError) := by
  obtain ⟨mns⟩ := k
  refine ⟨?_, ?_, ?_⟩
  · intro m hm
    cases hm
    rfl
  · intro hn mns' hb
    cases hn
    cases hb
    rfl
  · intro hn e hb
    cases hn
    cases hb
    rfl

/-- C5 amended, witness: reuse with namespace 7 set, first-time
install of namespace 9, and failure propagation. -/
theorem runNamespaceStep_one_shot_witness :
    runNamespaceStep { rootMNS := some 7 } (.ok 8) = .ok { rootMNS := some 7 } ∧
    runNamespaceStep { rootMNS := none } (.ok 9) = .ok { rootMNS := some 9 } ∧
    runNamespaceStep { rootMNS := none } (.error .noUpperTree) = .error .mountError :=
  ⟨(runNamespaceStep_one_shot { rootMNS := some 7 } (.ok 8)).1 7 rfl,
   (runNamespaceStep_one_shot { rootMNS := none } (.ok 9)).2.1 rfl 9 rfl,
   (runNamespaceStep_one_shot { rootMNS := none } (.error .noUpperTree)).2.2 rfl
     .noUpperTree rfl⟩

/-- C8: the symlink budget for resolving the process-info mount path
is initialized to the fixed platform maximum (40); a lookup that
traverses exactly the budgeted number of links succeeds, one more
link fails with SymlinkLimitExceeded, an absent intermediate
component fails with NotFound, and any resolution failure makes the
namespace construction return an error instead of a partially built
namespace. -/
theorem findInode_symlink_budget :
    runFollowLinks = 40 ∧
    (∀ b, findInode chainRoot (chainPath b) b = .ok (.dir [])) ∧
    (∀ b, findInode chainRoot (chainPath (b + 1)) b = .error .symlinkLimitExceeded) ∧
    (∀ b, findInode chainRoot ["nope", "x"] b = .error .notFound) ∧
    (∀ root b e, findInode root procMountPath b = .error e →
      attachProcMount root b = .error .mountError) := by
  refine ⟨rfl, ?_, ?_, ?_, ?_⟩
  · intro b
    induction b with
    | zero => rfl
    | succ b ih =>
        show findInodeAux (b + 1) chainRoot (chainPath (b + 1)) = .ok (.dir [])
        have h : chainPath (b + 1) = "l" :: chainPath b := by
          simp [chainPath, List.replicate_succ]
        rw [h]
        show findInodeAux b chainRoot (chainPath b) = .ok (.dir [])
        exact ih
  · intro b
    induction b with
    | zero => rfl
    | succ b ih =>
        show findInodeAux (b + 1) chainRoot (chainPath (b + 2)) =
          .error .symlinkLimitExceeded
        have h : chainPath (b + 2) = "l" :: chainPath (b + 1) := by
          simp [chainPath, List.replicate_succ]
        rw [h]
        show findInodeAux b chainRoot (chainPath (b + 1)) =
          .error .symlinkLimitExceeded
        exact ih
  · intro b
    cases b <;> rfl
  · intro root b e h
    rw [attachProcMount, h]

/-- C8 witness: a two-link chain under budget 2 succeeds, a
three-link chain under budget 2 exceeds the limit, an absent
component is NotFound, and a root without /proc aborts namespace
construction under the platform budget of 40. -/
theorem findInode_symlink_budget_witness :
    findInode chainRoot (chainPath 2) 2 = .ok (.dir []) ∧
    findInode chainRoot (chainPath 3) 2 = .error .symlinkLimitExceeded ∧
    findInode chainRoot ["nope", "x"] 5 = .error .notFound ∧
    attachProcMount (.dir []) runFollowLinks = .error .mountError :=
  ⟨findInode_symlink_budget.2.1 2,
   findInode_symlink_budget.2.2.1 2,
   findInode_symlink_budget.2.2.2.1 5,
   findInode_symlink_budget.2.2.2.2 (.dir []) runFollowLinks .notFound rfl⟩

/-- C9: with terminal mode enabled, Run's start sequence sets the
foreground process group of the shared terminal exactly once, to the
process group of the newly created initial process, strictly after
that process is created and strictly before execution begins. -/
theorem run_sets_foreground_pg_once (pg : Nat) :
    runStartEvents true pg =
      [.createProcess pg, .setForegroundPG pg, .start] ∧
    (runStartEvents true pg).countP
      (fun e => match e with | .setForegroundPG _ => true | _ => false) = 1 ∧
    ∃ i j k, i < j ∧ j < k ∧
      (runStartEvents true pg).get? i = some (.createProcess pg) ∧
      (runStartEvents true pg).get? j = some (.setForegroundPG pg) ∧
      (runStartEvents true pg).get? k = some .start :=
  ⟨rfl, rfl, 0, 1, 2, by decide, by decide, rfl, rfl, rfl⟩

/-- C9 witness at process group 5. -/
theorem run_sets_foreground_pg_once_witness :
    runStartEvents true 5 =
      [.createProcess 5, .setForegroundPG 5, .start] ∧
    (runStartEvents true 5).countP
      (fun e => match e with | .setForegroundPG _ => true | _ => false) = 1 ∧
    ∃ i j k, i < j ∧ j < k ∧
      (runStartEvents true 5).get? i = some (.createProcess 5) ∧
      (runStartEvents true 5).get? j = some (.setForegroundPG 5) ∧
      (runStartEvents true 5).get? k = some .start :=
  run_sets_foreground_pg_once 5

end Sbox
